import Mathlib

/-!
Shallow embedding of the `chow` step-execution engine (Go repository
`kendalharland/chow`).  The repository keeps two historical revisions of the
path resolver (`src/internal.go` and `src/paths.go`); both are embedded here,
as namespaces `InternalGo` and `PathsGo`, and each theorem names the revision
it is about.  Machine-level concerns are modelled as follows: Go slices that
share a backing array are modelled as references into an explicit heap
(`List (List String)`); Go panics (including `logFatal`, which panics and is
recovered at the entry point) are modelled as `Except.error`; the operating
system (working directory, subprocess behaviour, the post-execution
filesystem) is an explicit parameter record.
-/

/-- Step describes a shell command to run, after `src/chow.go`:
`Command` is the argv token list and `Outputs` the declared output paths. -/
structure Step where
  Command : List String
  Outputs : List String
deriving DecidableEq, Repr

/-- StepResult describes the output of a step execution (`src/chow.go`). -/
structure StepResult where
  Stdout : String
  Stderr : String
  ExitCode : Int
deriving DecidableEq, Repr

/-- Zero value of the Go struct `StepResult`: `{"", "", 0}`. -/
def StepResult.zero : StepResult := ⟨"", "", 0⟩

/-- Log entry for a step invocation, after `stepLog` in `src/internal.go`.
Field `Step` is the step (its JSON key is `step`), field `StepResult` the
result (JSON key `result`). -/
structure stepLog where
  StepName : String
  Step : Step
  StepResult : StepResult
deriving DecidableEq, Repr

/-- Mock is a test-time substitute result for a named step (`src/testing.go`). -/
structure Mock where
  Step : String
  Result : StepResult
deriving DecidableEq, Repr

/-- Helper for Go's `strings.HasPrefix` + `strings.SplitN(p, pre, 2)[1]`
composite on character lists: strip `pre` off the front of `p`, or fail. -/
def dropPreCh : List Char → List Char → Option (List Char)
  | [], p => some p
  | _ :: _, [] => none
  | a :: pre, b :: p => if b = a then dropPreCh pre p else none

/-- String-level front-stripping: `some suffix` when `p = pre ++ suffix`. -/
def strDropPre (pre p : String) : Option String :=
  (dropPreCh pre.data p.data).map (fun l => ⟨l⟩)

/-- Model of Go's `filepath.FromSlash`: replace `'/'` with the platform
separator `sep` (on POSIX, `sep = '/'` and this is the identity). -/
def fromSlash (sep : Char) (s : String) : String :=
  ⟨s.data.map (fun c => if c = '/' then sep else c)⟩

/-- Model of Go's `strings.TrimRight(s, "/")`: drop trailing slashes. -/
def trimRightSlash (s : String) : String :=
  ⟨(s.data.reverse.dropWhile (fun c => c = '/')).reverse⟩

/-- Assoc-list lookup modelling a read of a Go `map[string]V` (keys written
by the program are distinct, so first-match lookup agrees with the map). -/
def alistFind {α : Type} : List (String × α) → String → Option α
  | [], _ => none
  | (k, v) :: rest, key => if k = key then some v else alistFind rest key

/-- Failures that can escape the path converter: `getwdFailed` is the
returned error for an `os.Getwd` failure; `nilAssert` models the runtime
panic of `file.(*os.File)` on the `nil` produced by looking up an
unregistered placeholder id in the `placeholders` map. -/
inductive ConvErr where
  | getwdFailed (msg : String)
  | nilAssert (id : String)
deriving DecidableEq, Repr

/-- Process context seen by the resolver: the result of `os.Getwd` and the
process-wide placeholder registry (id ↦ backing temp-file path). -/
structure PathCtx where
  cwd : Except String String
  phs : List (String × String)

namespace InternalGo

/-- One iteration of the loop of `prodRunner.convertAnyPaths` in
`src/internal.go`: rewrites `//cwd/…`, then `//ph/…`, then `///…`, and leaves
every other token unchanged; returns the new token together with the
runner's `startDir` field, which the `///` branch overwrites with its
right-trimmed value. -/
def convertOne (sep : Char) (ctx : PathCtx) (sd : String) (p : String) :
    Except ConvErr (String × String) :=
  match strDropPre "//cwd/" p with
  | some rest =>
    match ctx.cwd with
    | .error e => .error (.getwdFailed e)
    | .ok wd => .ok (fromSlash sep (wd ++ "/" ++ rest), sd)
  | none =>
  match strDropPre "//ph/" p with
  | some id =>
    match alistFind ctx.phs id with
    | none => .error (.nilAssert id)
    | some f => .ok (f, sd)
  | none =>
  match strDropPre "///" p with
  | some rest =>
    let sd' := trimRightSlash sd
    .ok (fromSlash sep (sd' ++ "/" ++ rest), sd')
  | none => .ok (p, sd)

/-- The loop of `prodRunner.convertAnyPaths` in `src/internal.go` over a
token list, threading the runner's `startDir` field. -/
def convertAnyPaths (sep : Char) (ctx : PathCtx) :
    String → List String → Except ConvErr (List String × String)
  | sd, [] => .ok ([], sd)
  | sd, p :: rest =>
    match convertOne sep ctx sd p with
    | .error e => .error e
    | .ok (tok, sd') =>
      match convertAnyPaths sep ctx sd' rest with
      | .error e => .error e
      | .ok (toks, sd'') => .ok (tok :: toks, sd'')

end InternalGo

deriving instance DecidableEq for Except

example : InternalGo.convertAnyPaths '/' ⟨Except.ok "/c", []⟩ "/s" ["//cwd/a", "x"] =
    .ok (["/c/a", "x"], "/s") := by decide

example : InternalGo.convertAnyPaths '/' ⟨Except.ok "/c", [("0", "/tmp/f0")]⟩ "/s"
    ["//ph/0", "///b", "//b"] = .ok (["/tmp/f0", "/s/b", "//b"], "/s") := by decide

namespace PathsGo

/-- One iteration of the loop of `prodRunner.convertAnyPaths` in the
`src/paths.go` revision: rewrites `//CWD/…`, then `//…` (start dir, trailing
slashes of `startDir` trimmed first), applies `filepath.FromSlash` to a bare
absolute path while emitting the `logWarning` diagnostic, and leaves every
other token unchanged.  Returns `(token, newStartDir, warnings)`. -/
def convertOne (sep : Char) (cwd : Except String String) (sd : String) (p : String) :
    Except String (String × String × List String) :=
  match strDropPre "//CWD/" p with
  | some rest =>
    match cwd with
    | .error e => .error ("failed to get cwd: " ++ e)
    | .ok wd => .ok (fromSlash sep (wd ++ "/" ++ rest), sd, [])
  | none =>
  match strDropPre "//" p with
  | some rest =>
    let sd' := trimRightSlash sd
    .ok (fromSlash sep (sd' ++ "/" ++ rest), sd', [])
  | none =>
  match strDropPre "/" p with
  | some _ => .ok (fromSlash sep p, sd, ["unsafe use of absolute path " ++ p])
  | none => .ok (p, sd, [])

/-- The loop of `prodRunner.convertAnyPaths` in the `src/paths.go` revision
over a token list, threading `startDir` and collecting the warnings written
to the diagnostic stream. -/
def convertAnyPaths (sep : Char) (cwd : Except String String) :
    String → List String → Except String (List String × String × List String)
  | sd, [] => .ok ([], sd, [])
  | sd, p :: rest =>
    match convertOne sep cwd sd p with
    | .error e => .error e
    | .ok (tok, sd', ws) =>
      match convertAnyPaths sep cwd sd' rest with
      | .error e => .error e
      | .ok (toks, sd'', ws') => .ok (tok :: toks, sd'', ws ++ ws')

end PathsGo

example : PathsGo.convertAnyPaths '/' (Except.ok "/c") "/s/"
    ["//CWD/a", "//b", "/abs/c", "rel", "//cwd/x"] =
    .ok (["/c/a", "/s/b", "/abs/c", "rel", "/s/cwd/x"], "/s",
      ["unsafe use of absolute path /abs/c"]) := by decide

/-- Behaviour of the subprocess launched by `prodRunner.Run`: whether
`child.Start` succeeded, the bytes the child wrote to the two recording
writers, and the exit status recovered from `child.Wait`. -/
structure ExecBehavior where
  startOk : Bool
  stdout : String
  stderr : String
  exitCode : Int

/-- Operating-system context for one production `Run` call: the result of
`os.Getwd`, the placeholder registry, the behaviour of `exec.Command` for a
given argv, and the `os.Stat`-existence of each path after the child exits. -/
structure OSModel where
  cwd : Except String String
  phs : List (String × String)
  exec : List String → ExecBehavior
  pathExists : String → Bool

/-- Failures that abort a production `Run` (in Go, each is a panic — raised
by `logFatal` or by a runtime fault — recovered in `runRunnable`). -/
inductive RunError where
  | fatalConvertCommand (msg : String)
  | fatalConvertOutputs (msg : String)
  | phNilAssert (id : String)
  | cmdIndexOutOfRange
  | startFailed
  | missingOutputs (paths : List String)
deriving DecidableEq, Repr

namespace InternalGo

/-- Shallow embedding of `prodRunner.Run` (`src/internal.go`): resolve paths
in the command and then the outputs (fatal on error), launch the first
command token (Go panics on `Command[0]` when the command is empty; fatal
when `child.Start` fails), wait for the exit code, stat every declared
output and fail fatally when any is missing — even on exit code 0 — and
otherwise emit the log entry and return the `StepResult`.  Returns the
result, the log entry, and the runner's updated `startDir` field. -/
def prodRun (sep : Char) (os : OSModel) (startDir : String) (name : String) (step : Step) :
    Except RunError (StepResult × stepLog × String) :=
  match convertAnyPaths sep ⟨os.cwd, os.phs⟩ startDir step.Command with
  | .error (.getwdFailed m) => .error (.fatalConvertCommand m)
  | .error (.nilAssert id) => .error (.phNilAssert id)
  | .ok (cmd', sd1) =>
    match convertAnyPaths sep ⟨os.cwd, os.phs⟩ sd1 step.Outputs with
    | .error (.getwdFailed m) => .error (.fatalConvertOutputs m)
    | .error (.nilAssert id) => .error (.phNilAssert id)
    | .ok (outs', sd2) =>
      match cmd' with
      | [] => .error .cmdIndexOutOfRange
      | c0 :: rest =>
        let beh := os.exec (c0 :: rest)
        if beh.startOk = false then .error .startFailed
        else
          let missing := outs'.filter (fun o => !os.pathExists o)
          if missing.isEmpty then
            let res : StepResult := ⟨beh.stdout, beh.stderr, beh.exitCode⟩
            .ok (res, ⟨name, ⟨c0 :: rest, outs'⟩, res⟩, sd2)
          else .error (.missingOutputs missing)

end InternalGo

/-- Per-name call counts of the test runner, modelling its
`callCounts map[string]int` (insertion-ordered association list; lookups and
single-key increments are the only operations the Go code performs). -/
def lookupCount (m : List (String × Nat)) (k : String) : Option Nat :=
  alistFind m k

/-- Increment `callCounts[k]` as Go's `r.callCounts[name]++` does: bump the
stored count, or insert the key with count 1 when absent. -/
def bumpCount : List (String × Nat) → String → List (String × Nat)
  | [], k => [(k, 1)]
  | (k', v) :: rest, k =>
    if k' = k then (k', v + 1) :: rest else (k', v) :: bumpCount rest k

/-- Name used for mock matching and logging: the step name as given on its
first occurrence, and `name ++ " " ++ count` on later occurrences
(`fmt.Sprintf("%s %d", name, i)` in `testRunner.Run`). -/
def disambiguate (counts : List (String × Nat)) (name : String) : String :=
  match lookupCount counts name with
  | some i => name ++ " " ++ toString i
  | none => name

/-- The mock-search loop of `testRunner.Run`: scan the registered mocks in
order for the first whose `Step` equals the name; return its result and the
list with that single mock removed (at-most-once consumption). -/
def findAndRemoveMock : List Mock → String → Option StepResult × List Mock
  | [], _ => (none, [])
  | m :: rest, name =>
    if m.Step = name then (some m.Result, rest)
    else
      let (r, rest') := findAndRemoveMock rest name
      (r, m :: rest')

/-- State of the test runner (`testRunner` in `src/internal.go`). -/
structure testRunner where
  Mocks : List Mock
  callCounts : List (String × Nat)
  stepLogs : List stepLog
deriving Repr

/-- Shallow embedding of `testRunner.Run` (`src/internal.go`): disambiguate
the name against the current call counts, increment the count stored under
the disambiguated name, consume the first matching mock (zero result when
none matches), append the log entry, and return the result. -/
def testRunner.Run (r : testRunner) (name : String) (step : Step) : testRunner × StepResult :=
  let dname := disambiguate r.callCounts name
  let counts := bumpCount r.callCounts dname
  let found := findAndRemoveMock r.Mocks dname
  let res := found.1.getD StepResult.zero
  (⟨found.2, counts, r.stepLogs ++ [⟨dname, step, res⟩]⟩, res)

/-- Run a sequence of `(name, step)` calls against the test runner,
collecting the returned results in call order. -/
def runSeq : testRunner → List (String × Step) → testRunner × List StepResult
  | r, [] => (r, [])
  | r, c :: calls =>
    let first := r.Run c.1 c.2
    let rest := runSeq first.1 calls
    (rest.1, first.2 :: rest.2)

/-- Fresh test runner as `TestConfig.Run` constructs it: the registered
mocks, a nil call-count map, and no logs. -/
def testRunner.init (mocks : List Mock) : testRunner := ⟨mocks, [], []⟩

example :
    (runSeq (testRunner.init [⟨"s", ⟨"out", "", 7⟩⟩])
      [("s", ⟨["c"], []⟩), ("s", ⟨["c"], []⟩), ("s", ⟨["c"], []⟩)]).2 =
    [⟨"out", "", 7⟩, StepResult.zero, StepResult.zero] := by decide

example :
    ((runSeq (testRunner.init []) [("s", ⟨["c"], []⟩), ("s", ⟨["c"], []⟩),
      ("s", ⟨["c"], []⟩), ("s", ⟨["c"], []⟩)]).1.stepLogs.map (fun e => e.StepName)) =
    ["s", "s 1", "s 1", "s 1"] := by decide

/-- JSON values, at the level produced by `encoding/json` for the `stepLog`
struct (strings, integers, string arrays, and objects with ordered fields). -/
inductive Json where
  | null
  | str (s : String)
  | int (n : Int)
  | arr (xs : List Json)
  | obj (fields : List (String × Json))

/-- Encode a string slice as `encoding/json` does. -/
def encodeStrList (l : List String) : Json := .arr (l.map .str)

/-- Encode a `Step` with its struct tags `command`, `outputs` (`src/chow.go`). -/
def encodeStep (s : Step) : Json :=
  .obj [("command", encodeStrList s.Command), ("outputs", encodeStrList s.Outputs)]

/-- Encode a `StepResult` with its struct tags `stdout`, `stderr`,
`exit_code` (`src/chow.go`). -/
def encodeStepResult (r : StepResult) : Json :=
  .obj [("stdout", .str r.Stdout), ("stderr", .str r.Stderr), ("exit_code", .int r.ExitCode)]

/-- Encode a `stepLog` with its struct tags `step_name`, `step`, `result`
(`src/internal.go`), fields in struct order as `json.Marshal` emits them. -/
def encodeStepLog (e : stepLog) : Json :=
  .obj [("step_name", .str e.StepName), ("step", encodeStep e.Step),
    ("result", encodeStepResult e.StepResult)]

/-- Field lookup by name, as `json.Unmarshal` matches object keys to tags. -/
def getField : List (String × Json) → String → Option Json
  | [], _ => none
  | (k, v) :: rest, key => if k = key then some v else getField rest key

/-- Decode a JSON string. -/
def asStr : Json → Option String
  | .str s => some s
  | _ => none

/-- Decode a JSON integer. -/
def asInt : Json → Option Int
  | .int n => some n
  | _ => none

/-- Decode a list of JSON strings elementwise. -/
def strList : List Json → Option (List String)
  | [] => some []
  | j :: rest =>
    match asStr j, strList rest with
    | some s, some l => some (s :: l)
    | _, _ => none

/-- Decode a JSON string array into a string slice. -/
def asStrList : Json → Option (List String)
  | .arr xs => strList xs
  | _ => none

/-- Decode a `Step` from its JSON object shape. -/
def decodeStep (j : Json) : Option Step :=
  match j with
  | .obj fields =>
    match getField fields "command", getField fields "outputs" with
    | some c, some o =>
      match asStrList c, asStrList o with
      | some cs, some os => some ⟨cs, os⟩
      | _, _ => none
    | _, _ => none
  | _ => none

/-- Decode a `StepResult` from its JSON object shape. -/
def decodeStepResult (j : Json) : Option StepResult :=
  match j with
  | .obj fields =>
    match getField fields "stdout", getField fields "stderr", getField fields "exit_code" with
    | some o, some e, some c =>
      match asStr o, asStr e, asInt c with
      | some os, some es, some ci => some ⟨os, es, ci⟩
      | _, _, _ => none
    | _, _, _ => none
  | _ => none

/-- Decode a `stepLog` from its JSON object shape. -/
def decodeStepLog (j : Json) : Option stepLog :=
  match j with
  | .obj fields =>
    match getField fields "step_name", getField fields "step", getField fields "result" with
    | some n, some s, some r =>
      match asStr n, decodeStep s, decodeStepResult r with
      | some ns, some ss, some rs => some ⟨ns, ss, rs⟩
      | _, _, _ => none
    | _, _, _ => none
  | _ => none

example : decodeStepLog (encodeStepLog ⟨"n", ⟨["a", "b"], ["o"]⟩, ⟨"so", "se", 3⟩⟩) =
    some ⟨"n", ⟨["a", "b"], ["o"]⟩, ⟨"so", "se", 3⟩⟩ := by decide

/-- Output sinks a runner can be bound to: the process's real standard
streams, or any other writer. -/
inductive Sink where
  | stdout
  | stderr
  | other (n : Nat)
deriving DecidableEq, Repr

/-- Construction-time state of a production runner as `runRunnable` builds
it: the start directory captured from `os.Getwd` and the two output sinks. -/
structure RunnerInit where
  startDir : String
  stdout : Sink
  stderr : Sink
deriving DecidableEq, Repr

/-- Shallow embedding of `runRunnable` (`src/internal.go`): take the working
directory (a `logFatal` panic, recovered into the returned error, when
`os.Getwd` fails), build the production runner from it and the two supplied
sinks, invoke the runnable on it once, and recover any fatal panic raised
during execution as the returned error (`none` = Go's `nil` on a clean
run).  The runnable is modelled as a function from the constructed runner to
`Except String Unit`, an `error` being the payload of a fatal panic. -/
def runRunnable (getwd : Except String String) (out err : Sink)
    (runnable : RunnerInit → Except String Unit) : Option String :=
  match getwd with
  | .error e => some ("failed to get working directory: " ++ e)
  | .ok wd =>
    match runnable ⟨wd, out, err⟩ with
    | .error e => some e
    | .ok _ => none

/-- Shallow embedding of `Main` (`src/chow.go`): run the runnable against
the real `os.Stdout` and `os.Stderr` streams. -/
def Main (getwd : Except String String) (runnable : RunnerInit → Except String Unit) :
    Option String :=
  runRunnable getwd Sink.stdout Sink.stderr runnable

example : Main (Except.ok "/w") (fun _ => Except.ok ()) = none := by decide

example : Main (Except.ok "/w") (fun _ => Except.error "boom") = some "boom" := by decide

/-- In-place path resolution of `prodRunner.Run` (`src/internal.go`, the
assignments `r.currentStep = step` followed by `convertAnyPaths` over
`r.currentStep.Command` and `r.currentStep.Outputs`) with Go slice aliasing
made explicit: the heap holds the backing arrays, a `Step` value holds
references into it, and the struct copy `r.currentStep = step` copies the
slice headers only, so `args[i] = …` writes through to the caller's arrays.
`cmdRef`/`outRef` are the caller's command and outputs references. -/
def resolveStepInPlace (sep : Char) (ctx : PathCtx) (heap : List (List String))
    (sd : String) (cmdRef outRef : Nat) : Except ConvErr (List (List String) × String) :=
  match InternalGo.convertAnyPaths sep ctx sd (heap.getD cmdRef []) with
  | .error e => .error e
  | .ok (cmd', sd1) =>
    let heap1 := heap.set cmdRef cmd'
    match InternalGo.convertAnyPaths sep ctx sd1 (heap1.getD outRef []) with
    | .error e => .error e
    | .ok (out', sd2) => .ok (heap1.set outRef out', sd2)

example : resolveStepInPlace '/' ⟨Except.ok "/c", []⟩ [["//cwd/a"], []] "/s" 0 1 =
    .ok ([["/c/a"], []], "/s") := by decide

/-- Shallow embedding of `PlaceholderPath` (`src/chow.go`): the backing file
path of a registered placeholder id, and a panic (modelled as
`Except.error`, message as in the source) on an unknown id. -/
def PlaceholderPath (phs : List (String × String)) (id : String) : Except String String :=
  match alistFind phs id with
  | some f => .ok f
  | none => .error ("unkown placeholder ID: " ++ id)

/-! Helper lemmas about the string front-stripping combinators. -/

lemma dropPreCh_self_append (l m : List Char) : dropPreCh l (l ++ m) = some m := by
  induction l with
  | nil => rfl
  | cons a rest ih => simp [dropPreCh, ih]

lemma strDropPre_append (pre s : String) : strDropPre pre (pre ++ s) = some s := by
  simp [strDropPre, String.data_append, dropPreCh_self_append]

lemma dropPreCh_append_pre (a b p : List Char) :
    dropPreCh (a ++ b) p = (dropPreCh a p).bind (dropPreCh b) := by
  induction a generalizing p with
  | nil => simp [dropPreCh]
  | cons c rest ih =>
    cases p with
    | nil => simp [dropPreCh]
    | cons d p' => by_cases h : d = c <;> simp [dropPreCh, h, ih]

lemma fromSlash_slash (s : String) : fromSlash '/' s = s := by
  have hf : (fun c => if c = '/' then '/' else c) = fun c => c := by
    funext c
    by_cases h : c = '/' <;> simp [h]
  simp [fromSlash, hf]

/-- C1 helper: a `//ph/…` token never matches the `//cwd/` guard that runs
before the placeholder guard in `InternalGo.convertOne`. -/
lemma cwd_guard_misses_ph (id : String) : strDropPre "//cwd/" ("//ph/" ++ id) = none := by
  have h1 : ("//ph/" ++ id).data = '/' :: '/' :: 'p' :: 'h' :: '/' :: id.data := by
    rw [String.data_append]; rfl
  have h2 : ("//cwd/" : String).data = ['/', '/', 'c', 'w', 'd', '/'] := rfl
  simp [strDropPre, h1, h2, dropPreCh]

/-- C1: spec P1 asks that `//cwd/x` resolve against the working directory,
`//x` against the start directory, `//ph/id` against the placeholder
registry, and that unrecognized tokens pass through.  Evaluation of the
`src/internal.go` resolver at the failing input: the token
`//path/to/file`, which spec P1 and the repository's own test
`should convert path containing start dir in command` expect to resolve to
`<startDir>/path/to/file`, is left unchanged, because this revision only
recognizes the three-slash form `///…` for the start directory. -/
theorem c1_doubleslash_start_dir_not_resolved :
    InternalGo.convertAnyPaths '/' ⟨Except.ok "/home/u", []⟩ "/home/u" ["//path/to/file"] =
      .ok (["//path/to/file"], "/home/u") ∧
    "//path/to/file" ≠ "/home/u/path/to/file" := by decide

/-- C5: the entry point `Main` builds a production runner from the real
standard streams and the starting working directory (`runRunnable`),
invokes the user runnable on it once, converts a fatal failure into the
single returned error, and returns nil on a clean run. -/
theorem c5_entry_point_contract (getwd : Except String String)
    (f : RunnerInit → Except String Unit) (wd : String) (h : getwd = Except.ok wd) :
    (f ⟨wd, Sink.stdout, Sink.stderr⟩ = .ok () → Main getwd f = none) ∧
    (∀ e, f ⟨wd, Sink.stdout, Sink.stderr⟩ = .error e → Main getwd f = some e) := by
  subst h
  constructor
  · intro hok
    simp [Main, runRunnable, hok]
  · intro e he
    simp [Main, runRunnable, he]

theorem c5_witness :
    (Except.ok "/w" : Except String String) = Except.ok "/w" ∧
    Main (Except.ok "/w") (fun _ => Except.ok ()) = none :=
  ⟨rfl, (c5_entry_point_contract (Except.ok "/w") (fun _ => Except.ok ()) "/w" rfl).1 rfl⟩

/-- C6 helper: decoding the elementwise encoding of a string slice gives
the slice back. -/
lemma strList_map_str (l : List String) : strList (l.map Json.str) = some l := by
  induction l with
  | nil => rfl
  | cons s rest ih => simp [strList, asStr, ih]

/-- C6: encoding a `stepLog` to the JSON shape with field names
`step_name`, `step{command, outputs}`, `result{stdout, stderr, exit_code}`
and decoding it back yields a value equal in all fields to the original,
for every step name, token lists, stdout/stderr strings and exit code. -/
theorem c6_steplog_json_roundtrip (e : stepLog) :
    decodeStepLog (encodeStepLog e) = some e := by
  obtain ⟨n, ⟨c, o⟩, ⟨so, se, ec⟩⟩ := e
  simp [encodeStepLog, encodeStep, encodeStepResult, encodeStrList, decodeStepLog,
    decodeStep, decodeStepResult, getField, asStr, asInt, asStrList, strList_map_str]

/-- C8: resolving a `//ph/<id>` token looks the id up in the placeholder
registry; an unregistered id is fatal (the `nil` map entry makes the
`file.(*os.File)` assertion panic, aborting the run, and `PlaceholderPath`
panics explicitly), while a registered id resolves to the placeholder's
backing file path. -/
theorem c8_placeholder_resolution (sep : Char) (cwd : Except String String)
    (phs : List (String × String)) (sd id : String) :
    (alistFind phs id = none →
      InternalGo.convertAnyPaths sep ⟨cwd, phs⟩ sd ["//ph/" ++ id] =
        .error (.nilAssert id) ∧
      PlaceholderPath phs id = .error ("unkown placeholder ID: " ++ id)) ∧
    (∀ f, alistFind phs id = some f →
      InternalGo.convertAnyPaths sep ⟨cwd, phs⟩ sd ["//ph/" ++ id] = .ok ([f], sd) ∧
      PlaceholderPath phs id = .ok f) := by
  constructor
  · intro hnone
    constructor
    · simp [InternalGo.convertAnyPaths, InternalGo.convertOne, cwd_guard_misses_ph,
        strDropPre_append, hnone]
    · simp [PlaceholderPath, hnone]
  · intro f hsome
    constructor
    · simp [InternalGo.convertAnyPaths, InternalGo.convertOne, cwd_guard_misses_ph,
        strDropPre_append, hsome]
    · simp [PlaceholderPath, hsome]

theorem c8_witness :
    alistFind [("0", "/tmp/f0")] "1" = none ∧
    alistFind [("0", "/tmp/f0")] "0" = some "/tmp/f0" ∧
    (InternalGo.convertAnyPaths '/' ⟨Except.ok "/c", [("0", "/tmp/f0")]⟩ "/s" ["//ph/" ++ "1"] =
        .error (.nilAssert "1") ∧
      PlaceholderPath [("0", "/tmp/f0")] "1" = .error ("unkown placeholder ID: " ++ "1")) ∧
    (InternalGo.convertAnyPaths '/' ⟨Except.ok "/c", [("0", "/tmp/f0")]⟩ "/s" ["//ph/" ++ "0"] =
        .ok (["/tmp/f0"], "/s") ∧
      PlaceholderPath [("0", "/tmp/f0")] "0" = .ok "/tmp/f0") :=
  ⟨by decide, by decide,
    (c8_placeholder_resolution '/' (Except.ok "/c") [("0", "/tmp/f0")] "/s" "1").1 (by decide),
    (c8_placeholder_resolution '/' (Except.ok "/c") [("0", "/tmp/f0")] "/s" "0").2
      "/tmp/f0" (by decide)⟩

/-- C9 counterexample: at a concrete input the claim "the caller's Step is
never mutated" is false.  The caller's command array (heap slot 0) holds
`["//cwd/a"]` before `Run`; after the in-place resolution phase of
`prodRunner.Run` the same slot holds `["/c/a"]`, because the struct copy
`r.currentStep = step` shares the slice backing array with the caller. -/
theorem c9_counterexample :
    resolveStepInPlace '/' ⟨Except.ok "/c", []⟩ [["//cwd/a"], []] "/s" 0 1 =
      .ok ([["/c/a"], []], "/s") ∧
    ([["/c/a"], []] : List (List String)).getD 0 [] ≠
      ([["//cwd/a"], []] : List (List String)).getD 0 [] := by decide

/-- Reading a heap slot just written (`List.set`) gives the written value. -/
lemma setGetDSame {α : Type} (d : α) :
    ∀ (l : List α) (i : Nat) (x : α), i < l.length → (l.set i x).getD i d = x := by
  intro l
  induction l with
  | nil => intro i x h; simp at h
  | cons a rest ih =>
    intro i x h
    cases i with
    | zero => rfl
    | succ j =>
      simp only [List.set, List.getD_cons_succ]
      exact ih j x (by simpa using h)

/-- Writing one heap slot leaves every other slot unchanged. -/
lemma setGetDOther {α : Type} (d : α) :
    ∀ (l : List α) (i j : Nat) (x : α), i ≠ j → (l.set i x).getD j d = l.getD j d := by
  intro l
  induction l with
  | nil => intro i j x _; simp
  | cons a rest ih =>
    intro i j x hne
    cases i with
    | zero =>
      cases j with
      | zero => exact absurd rfl hne
      | succ k => rfl
    | succ m =>
      cases j with
      | zero => rfl
      | succ k =>
        simp only [List.set, List.getD_cons_succ]
        exact ih m k x (by omega)

/-- C9, amended: the production runner does NOT honor a copy contract — the
struct copy shares the caller's slice backing arrays, so after the path
resolution phase of `Run` the caller's command and outputs arrays hold the
resolved token lists (the original is observed unchanged only when
resolution rewrites no token). -/
theorem c9_run_mutates_caller_step (sep : Char) (ctx : PathCtx)
    (heap : List (List String)) (sd : String) (cmdRef outRef : Nat)
    (cmd' out' : List String) (sd1 sd2 : String)
    (hne : cmdRef ≠ outRef) (hc : cmdRef < heap.length) (ho : outRef < heap.length)
    (h1 : InternalGo.convertAnyPaths sep ctx sd (heap.getD cmdRef []) = .ok (cmd', sd1))
    (h2 : InternalGo.convertAnyPaths sep ctx sd1 (heap.getD outRef []) = .ok (out', sd2)) :
    ∃ heap', resolveStepInPlace sep ctx heap sd cmdRef outRef = .ok (heap', sd2) ∧
      heap'.getD cmdRef [] = cmd' ∧ heap'.getD outRef [] = out' := by
  have hview : (heap.set cmdRef cmd').getD outRef [] = heap.getD outRef [] :=
    setGetDOther [] heap cmdRef outRef cmd' hne
  refine ⟨(heap.set cmdRef cmd').set outRef out', ?_, ?_, ?_⟩
  · unfold resolveStepInPlace
    rw [h1]
    simp only []
    rw [hview, h2]
  · rw [setGetDOther [] _ outRef cmdRef out' (Ne.symm hne)]
    exact setGetDSame [] heap cmdRef cmd' hc
  · exact setGetDSame [] _ outRef out' (by simpa using ho)

theorem c9_witness :
    (0 : Nat) ≠ 1 ∧ (0 : Nat) < 2 ∧ (1 : Nat) < 2 ∧
    InternalGo.convertAnyPaths '/' ⟨Except.ok "/c", []⟩ "/s"
      (([["//cwd/a"], ["//cwd/b"]] : List (List String)).getD 0 []) = .ok (["/c/a"], "/s") ∧
    InternalGo.convertAnyPaths '/' ⟨Except.ok "/c", []⟩ "/s"
      (([["//cwd/a"], ["//cwd/b"]] : List (List String)).getD 1 []) = .ok (["/c/b"], "/s") ∧
    (∃ heap', resolveStepInPlace '/' ⟨Except.ok "/c", []⟩ [["//cwd/a"], ["//cwd/b"]] "/s" 0 1 =
        .ok (heap', "/s") ∧
      heap'.getD 0 [] = ["/c/a"] ∧ heap'.getD 1 [] = ["/c/b"]) :=
  ⟨by decide, by decide, by decide, by decide, by decide,
    c9_run_mutates_caller_step '/' ⟨Except.ok "/c", []⟩ [["//cwd/a"], ["//cwd/b"]] "/s" 0 1
      ["/c/a"] ["/c/b"] "/s" "/s" (by decide) (by decide) (by decide) (by decide) (by decide)⟩

/-- C2 helper: the loop of `testRunner.Run` removes exactly the first mock
whose name matches (Go's `append(r.Mocks[:i], r.Mocks[i+1:]...)`). -/
lemma findAndRemoveMock_eraseP (l : List Mock) (n : String) :
    (findAndRemoveMock l n).2 = l.eraseP (fun m => m.Step == n) := by
  induction l with
  | nil => rfl
  | cons m rest ih =>
    by_cases h : m.Step = n <;> simp [findAndRemoveMock, List.eraseP_cons, h, ih]

/-- C2: in test mode a registered mock `{stepName: "s", result: R}` is
consumed by exactly one of three consecutive `Run("s", ·)` calls — the
first — and the other two calls return the zero `StepResult`; and in
general every `Run` call removes the first matching mock (lowest
registration index, compared against the disambiguated name) from the
active mock set, so a mock is consumed at most once. -/
theorem c2_mock_consumed_at_most_once (R : StepResult) (st1 st2 st3 : Step)
    (hR : R ≠ StepResult.zero) :
    (runSeq (testRunner.init [⟨"s", R⟩]) [("s", st1), ("s", st2), ("s", st3)]).2 =
      [R, StepResult.zero, StepResult.zero] ∧
    ((runSeq (testRunner.init [⟨"s", R⟩]) [("s", st1), ("s", st2), ("s", st3)]).2.countP
      (fun x => decide (x = R))) = 1 ∧
    (∀ (r : testRunner) (name : String) (st : Step),
      ((r.Run name st).1).Mocks =
        r.Mocks.eraseP (fun m => m.Step == disambiguate r.callCounts name)) := by
  have h0 : (runSeq (testRunner.init [⟨"s", R⟩]) [("s", st1), ("s", st2), ("s", st3)]).2 =
      [R, StepResult.zero, StepResult.zero] := rfl
  refine ⟨h0, ?_, ?_⟩
  · rw [h0]
    have hz : ¬(StepResult.zero = R) := fun h => hR h.symm
    simp [List.countP_cons, hz]
  · intro r name st
    simp [testRunner.Run, findAndRemoveMock_eraseP]

theorem c2_witness :
    (⟨"out", "", 7⟩ : StepResult) ≠ StepResult.zero ∧
    (runSeq (testRunner.init [⟨"s", ⟨"out", "", 7⟩⟩])
      [("s", ⟨["c"], []⟩), ("s", ⟨["c"], []⟩), ("s", ⟨["c"], []⟩)]).2 =
      [⟨"out", "", 7⟩, StepResult.zero, StepResult.zero] :=
  ⟨by decide, (c2_mock_consumed_at_most_once ⟨"out", "", 7⟩ ⟨["c"], []⟩ ⟨["c"], []⟩ ⟨["c"], []⟩
    (by decide)).1⟩

/-- A string is never equal to itself with the suffix `" 1"` appended. -/
lemma ne_append_one (s : String) : s ≠ s ++ " 1" := by
  intro h
  have hd := congrArg String.data h
  rw [String.data_append] at hd
  have hlen := congrArg List.length hd
  simp [List.length_append] at hlen

/-- Incrementing the count of one name leaves every other name's count
unchanged. -/
lemma lookupCount_bump_ne (k k' : String) (hne : k' ≠ k) :
    ∀ m : List (String × Nat), lookupCount (bumpCount m k) k' = lookupCount m k' := by
  have hkk : ¬k = k' := fun h => hne h.symm
  intro m
  induction m with
  | nil => simp [bumpCount, lookupCount, alistFind, hkk]
  | cons kv rest ih =>
    obtain ⟨k0, v0⟩ := kv
    by_cases h0 : k0 = k
    · subst h0
      simp [bumpCount, lookupCount, alistFind, hkk]
    · by_cases h1 : k0 = k'
      · subst h1
        simp [bumpCount, lookupCount, alistFind, h0]
      · simpa [bumpCount, lookupCount, alistFind, h0, h1] using ih

/-- When a name's stored count is 1, `testRunner.Run` uses the suffixed
name `s ++ " 1"` (`fmt.Sprintf("%s %d", name, 1)`). -/
lemma disambiguate_of_one (m : List (String × Nat)) (s : String)
    (h : lookupCount m s = some 1) : disambiguate m s = s ++ " 1" := by
  simp only [disambiguate, h]
  rw [String.append_assoc]
  rfl

/-- C10 helper: from any runner state whose counter for `s` is exactly 1,
every further call named `s` is logged under `s ++ " 1"` and leaves the
counter stored under `s` at 1. -/
lemma runSeq_suffixed (s : String) (steps : List Step) :
    ∀ r : testRunner, lookupCount r.callCounts s = some 1 →
      ((runSeq r (steps.map fun st => (s, st))).1.stepLogs.map (fun e => e.StepName) =
        r.stepLogs.map (fun e => e.StepName) ++ List.replicate steps.length (s ++ " 1")) ∧
      lookupCount ((runSeq r (steps.map fun st => (s, st))).1).callCounts s = some 1 := by
  induction steps with
  | nil => intro r hr; simpa [runSeq] using hr
  | cons st rest ih =>
    intro r hr
    have hd : disambiguate r.callCounts s = s ++ " 1" := disambiguate_of_one _ _ hr
    have hkeep : lookupCount ((r.Run s st).1).callCounts s = some 1 := by
      show lookupCount (bumpCount r.callCounts (disambiguate r.callCounts s)) s = some 1
      rw [hd, lookupCount_bump_ne (s ++ " 1") s (ne_append_one s)]
      exact hr
    obtain ⟨ihlog, ihcount⟩ := ih (r.Run s st).1 hkeep
    have hstep : (runSeq r ((st :: rest).map fun st => (s, st))).1 =
        (runSeq (r.Run s st).1 (rest.map fun st => (s, st))).1 := by
      simp [runSeq]
    have hlogs : ((r.Run s st).1).stepLogs = r.stepLogs ++ [⟨s ++ " 1", st,
        ((findAndRemoveMock r.Mocks (s ++ " 1")).1.getD StepResult.zero)⟩] := by
      show r.stepLogs ++ [⟨disambiguate r.callCounts s, st, _⟩] = _
      rw [hd]
    constructor
    · rw [hstep, ihlog, hlogs]
      simp [List.replicate_succ]
    · rw [hstep]
      exact ihcount

/-- C10: with a fresh test runner, a sequence of `n ≥ 2` `Run` calls that
all carry the same original name `s` logs (and mock-matches) the first call
under `s` and every later call under the same suffixed name `s ++ " 1"`:
the counter is incremented under the already-suffixed key, so the count
stored under `s` stays 1 and the numeric suffix never advances past 1. -/
theorem c10_disambiguation_suffix_stuck_at_one (mocks : List Mock) (s : String)
    (steps : List Step) (h2 : 2 ≤ steps.length) :
    ((runSeq (testRunner.init mocks) (steps.map fun st => (s, st))).1.stepLogs.map
      (fun e => e.StepName)) = s :: List.replicate (steps.length - 1) (s ++ " 1") ∧
    lookupCount
      ((runSeq (testRunner.init mocks) (steps.map fun st => (s, st))).1).callCounts s =
      some 1 := by
  match steps, h2 with
  | st :: rest, _ =>
    have hd0 : disambiguate ([] : List (String × Nat)) s = s := rfl
    have hc1 : lookupCount (((testRunner.init mocks).Run s st).1).callCounts s = some 1 := by
      show lookupCount (bumpCount [] (disambiguate [] s)) s = some 1
      rw [hd0]
      simp [bumpCount, lookupCount, alistFind]
    obtain ⟨hlog, hcount⟩ := runSeq_suffixed s rest ((testRunner.init mocks).Run s st).1 hc1
    have hstep : (runSeq (testRunner.init mocks) ((st :: rest).map fun st => (s, st))).1 =
        (runSeq ((testRunner.init mocks).Run s st).1 (rest.map fun st => (s, st))).1 := by
      simp [runSeq]
    have hlogs1 : (((testRunner.init mocks).Run s st).1).stepLogs =
        [⟨s, st, ((findAndRemoveMock mocks s).1.getD StepResult.zero)⟩] := by
      show ([] : List stepLog) ++ [⟨disambiguate [] s, st,
        ((findAndRemoveMock mocks (disambiguate [] s)).1.getD StepResult.zero)⟩] = _
      rw [hd0]
      rfl
    constructor
    · rw [hstep, hlog, hlogs1]
      simp
    · rw [hstep]
      exact hcount

theorem c10_witness :
    2 ≤ ([⟨["c"], []⟩, ⟨["c"], []⟩, ⟨["c"], []⟩] : List Step).length ∧
    ((runSeq (testRunner.init [])
        (([⟨["c"], []⟩, ⟨["c"], []⟩, ⟨["c"], []⟩] : List Step).map
          fun st => ("step", st))).1.stepLogs.map (fun e => e.StepName)) =
      "step" :: List.replicate 2 ("step" ++ " 1") :=
  ⟨by decide, (c10_disambiguation_suffix_stuck_at_one [] "step"
    [⟨["c"], []⟩, ⟨["c"], []⟩, ⟨["c"], []⟩] (by decide)).1⟩

/-- C3: whenever at least one declared output path (after resolution) does
not exist on disk once the subprocess has completed, production `Run`
fails fatally with the list of missing paths — the behaviour of the
subprocess, including a clean exit code 0, is irrelevant — and no
`StepResult` is returned to the caller. -/
theorem c3_missing_outputs_fatal (sep : Char) (os : OSModel) (sd name : String)
    (step : Step) (outs' : List String) (sd1 sd2 : String) (c0 : String) (cs : List String)
    (h1 : InternalGo.convertAnyPaths sep ⟨os.cwd, os.phs⟩ sd step.Command =
      .ok (c0 :: cs, sd1))
    (h2 : InternalGo.convertAnyPaths sep ⟨os.cwd, os.phs⟩ sd1 step.Outputs =
      .ok (outs', sd2))
    (hstart : (os.exec (c0 :: cs)).startOk = true)
    (hmiss : ∃ o ∈ outs', os.pathExists o = false) :
    InternalGo.prodRun sep os sd name step =
      .error (.missingOutputs (outs'.filter (fun o => !os.pathExists o))) := by
  obtain ⟨o, ho, hno⟩ := hmiss
  have homem : o ∈ outs'.filter (fun o => !os.pathExists o) := by
    rw [List.mem_filter]
    exact ⟨ho, by simp [hno]⟩
  have hne : (outs'.filter (fun o => !os.pathExists o)).isEmpty = false := by
    cases hfil : outs'.filter (fun o => !os.pathExists o) with
    | nil => rw [hfil] at homem; simp at homem
    | cons a as => rfl
  unfold InternalGo.prodRun
  rw [h1]
  simp only []
  rw [h2]
  simp only [hstart, hne]
  simp

theorem c3_witness :
    (∃ o ∈ (["out.txt"] : List String), (fun _ => false : String → Bool) o = false) ∧
    InternalGo.prodRun '/'
        ⟨Except.ok "/c", [], fun _ => ⟨true, "", "", 0⟩, fun _ => false⟩
        "/s" "n" ⟨["bin"], ["out.txt"]⟩ =
      .error (.missingOutputs ["out.txt"]) :=
  ⟨⟨"out.txt", by decide, rfl⟩,
    c3_missing_outputs_fatal '/'
      ⟨Except.ok "/c", [], fun _ => ⟨true, "", "", 0⟩, fun _ => false⟩
      "/s" "n" ⟨["bin"], ["out.txt"]⟩ ["out.txt"] "/s" "/s" "bin" []
      (by decide) (by decide) rfl ⟨"out.txt", by decide, rfl⟩⟩

/-- Default entries used with positional `List.getD` access to logs. -/
def dfltLog : stepLog := ⟨"", ⟨[], []⟩, StepResult.zero⟩

/-- Default entry used with positional `List.getD` access to calls. -/
def dfltCall : String × Step := ("", ⟨[], []⟩)

/-- C4 helper: the mock-search loop returns either no result or the result
of one of the registered mocks. -/
lemma findAndRemoveMock_fst_mem (l : List Mock) (n : String) :
    (findAndRemoveMock l n).1 = none ∨
      ∃ m ∈ l, (findAndRemoveMock l n).1 = some m.Result := by
  induction l with
  | nil => left; rfl
  | cons m rest ih =>
    by_cases h : m.Step = n
    · right
      exact ⟨m, List.mem_cons_self m rest, by simp [findAndRemoveMock, h]⟩
    · rcases ih with h0 | ⟨m', hm', he⟩
      · left
        simp [findAndRemoveMock, h, h0]
      · right
        exact ⟨m', List.mem_cons_of_mem m hm', by simp [findAndRemoveMock, h, he]⟩

/-- C4 helper: one `Run` call only ever removes mocks from the active set. -/
lemma run_mocks_sublist (r : testRunner) (name : String) (st : Step) :
    ((r.Run name st).1).Mocks.Sublist r.Mocks := by
  show (findAndRemoveMock r.Mocks (disambiguate r.callCounts name)).2.Sublist r.Mocks
  rw [findAndRemoveMock_eraseP]
  exact List.eraseP_sublist r.Mocks

/-- C4 helper: running a call sequence appends one log entry per call, in
order, with each entry's step recorded exactly as passed and each result
either the zero value or a registered mock's result. -/
lemma runSeq_logs_shape (calls : List (String × Step)) :
    ∀ r : testRunner, ∃ news : List stepLog,
      (runSeq r calls).1.stepLogs = r.stepLogs ++ news ∧
      news.length = calls.length ∧
      (∀ i, i < calls.length →
        (news.getD i dfltLog).Step = (calls.getD i dfltCall).2 ∧
        ((news.getD i dfltLog).StepResult = StepResult.zero ∨
          ∃ m ∈ r.Mocks, (news.getD i dfltLog).StepResult = m.Result)) := by
  induction calls with
  | nil =>
    intro r
    exact ⟨[], by simp [runSeq], rfl, fun i hi => absurd hi (by simp)⟩
  | cons c rest ih =>
    intro r
    obtain ⟨news, hcat, hlen, hprop⟩ := ih (r.Run c.1 c.2).1
    refine ⟨⟨disambiguate r.callCounts c.1, c.2,
      (findAndRemoveMock r.Mocks (disambiguate r.callCounts c.1)).1.getD
        StepResult.zero⟩ :: news, ?_, ?_, ?_⟩
    · have hfirst : (runSeq r (c :: rest)).1 = (runSeq (r.Run c.1 c.2).1 rest).1 := by
        simp [runSeq]
      rw [hfirst, hcat]
      show (r.stepLogs ++ [_]) ++ news = r.stepLogs ++ _ :: news
      rw [List.append_assoc]
      rfl
    · simp [hlen]
    · intro i hi
      cases i with
      | zero =>
        refine ⟨rfl, ?_⟩
        rcases findAndRemoveMock_fst_mem r.Mocks (disambiguate r.callCounts c.1) with
          h | ⟨m, hm, he⟩
        · left
          show (findAndRemoveMock r.Mocks (disambiguate r.callCounts c.1)).1.getD
            StepResult.zero = StepResult.zero
          rw [h]
          rfl
        · right
          refine ⟨m, hm, ?_⟩
          show (findAndRemoveMock r.Mocks (disambiguate r.callCounts c.1)).1.getD
            StepResult.zero = m.Result
          rw [he]
          rfl
      | succ j =>
        have hj : j < rest.length := by simpa using hi
        obtain ⟨hstep, hres⟩ := hprop j hj
        refine ⟨by simpa using hstep, ?_⟩
        rcases hres with h0 | ⟨m, hm, he⟩
        · left
          simpa using h0
        · right
          exact ⟨m, (run_mocks_sublist r c.1 c.2).subset hm, by simpa using he⟩

/-- C4: in every test-mode run the number of log entries equals the number
of `Run` calls, entries appear in call order, each entry's step field is
the `Step` exactly as the caller passed it (no path rewriting), and each
entry's result is the matched mock's result or the zero `StepResult`. -/
theorem c4_log_fidelity (mocks : List Mock) (calls : List (String × Step)) :
    (runSeq (testRunner.init mocks) calls).1.stepLogs.length = calls.length ∧
    ∀ i, i < calls.length →
      ((runSeq (testRunner.init mocks) calls).1.stepLogs.getD i dfltLog).Step =
        (calls.getD i dfltCall).2 ∧
      (((runSeq (testRunner.init mocks) calls).1.stepLogs.getD i dfltLog).StepResult =
          StepResult.zero ∨
        ∃ m ∈ mocks, ((runSeq (testRunner.init mocks) calls).1.stepLogs.getD i
          dfltLog).StepResult = m.Result) := by
  obtain ⟨news, hcat, hlen, hprop⟩ := runSeq_logs_shape calls (testRunner.init mocks)
  have hinit : (testRunner.init mocks).stepLogs = [] := rfl
  rw [hinit, List.nil_append] at hcat
  rw [hcat]
  exact ⟨hlen, hprop⟩

theorem c4_witness :
    (0 : Nat) < 2 ∧
    (runSeq (testRunner.init [⟨"a", ⟨"x", "", 1⟩⟩])
      [("a", ⟨["c1"], []⟩), ("b", ⟨["c2"], ["o"]⟩)]).1.stepLogs.length = 2 ∧
    ((runSeq (testRunner.init [⟨"a", ⟨"x", "", 1⟩⟩])
      [("a", ⟨["c1"], []⟩), ("b", ⟨["c2"], ["o"]⟩)]).1.stepLogs.getD 0 dfltLog).Step =
      ⟨["c1"], []⟩ :=
  ⟨by decide,
    (c4_log_fidelity [⟨"a", ⟨"x", "", 1⟩⟩] [("a", ⟨["c1"], []⟩), ("b", ⟨["c2"], ["o"]⟩)]).1,
    ((c4_log_fidelity [⟨"a", ⟨"x", "", 1⟩⟩]
      [("a", ⟨["c1"], []⟩), ("b", ⟨["c2"], ["o"]⟩)]).2 0 (by decide)).1⟩

/-- C7 helper: a token that does not start with `//` cannot start with the
longer prefix `//CWD/`, so the `//CWD/` guard (checked first) also misses. -/
lemma cwdUpper_guard_none (p : String) (h : strDropPre "//" p = none) :
    strDropPre "//CWD/" p = none := by
  have h0 : dropPreCh ("//" : String).data p.data = none := by
    rw [strDropPre] at h
    exact Option.map_eq_none'.mp h
  have hcwd : ("//CWD/" : String).data = ("//" : String).data ++ ("CWD/" : String).data := rfl
  rw [strDropPre, hcwd, dropPreCh_append_pre, h0]
  rfl

/-- C7 helper: with a working `os.Getwd`, the `src/paths.go` resolver never
fails on a single token. -/
lemma pathsgo_convertOne_ok (sep : Char) (wd sd p : String) :
    ∃ t sd' ws, PathsGo.convertOne sep (.ok wd) sd p = .ok (t, sd', ws) := by
  rcases h1 : strDropPre "//CWD/" p with _ | r1 <;>
    rcases h2 : strDropPre "//" p with _ | r2 <;>
    rcases h3 : strDropPre "/" p with _ | r3 <;>
    simp [PathsGo.convertOne, h1, h2, h3]

/-- C7 helper: with a working `os.Getwd`, the `src/paths.go` resolver never
fails on a token list, and it is length-preserving. -/
lemma pathsgo_list_ok (sep : Char) (wd : String) (args : List String) :
    ∀ sd, ∃ out sd' ws,
      PathsGo.convertAnyPaths sep (.ok wd) sd args = .ok (out, sd', ws) ∧
      out.length = args.length := by
  induction args with
  | nil => intro sd; exact ⟨[], sd, [], rfl, rfl⟩
  | cons p rest ih =>
    intro sd
    obtain ⟨t, sd1, ws1, h1⟩ := pathsgo_convertOne_ok sep wd sd p
    obtain ⟨out, sd2, ws2, h2, hlen⟩ := ih sd1
    exact ⟨t :: out, sd2, ws1 ++ ws2, by simp [PathsGo.convertAnyPaths, h1, h2],
      by simp [hlen]⟩

/-- C7 helper: a token starting with `/` but not `//` hits the
absolute-path branch: it is kept (identically, on a `/`-separator
platform) and the non-fatal warning is emitted. -/
lemma pathsgo_absolute_one (wd sd p : String)
    (habs : (strDropPre "/" p).isSome) (hns : strDropPre "//" p = none) :
    PathsGo.convertOne '/' (.ok wd) sd p =
      .ok (p, sd, ["unsafe use of absolute path " ++ p]) := by
  have hcwd : strDropPre "//CWD/" p = none := cwdUpper_guard_none p hns
  obtain ⟨r, hr⟩ := Option.isSome_iff_exists.mp habs
  simp [PathsGo.convertOne, hcwd, hns, hr, fromSlash_slash]

/-- C7: during path resolution in the `src/paths.go` revision, every token
that looks like an absolute path (leading `/`, matching no recognized `//…`
scheme) is left unchanged and causes the non-fatal warning
`unsafe use of absolute path <token>` on the diagnostic stream, after which
the remaining tokens are processed normally and the call succeeds. -/
theorem c7_absolute_path_warning (wd : String) (args : List String) :
    ∀ sd i, i < args.length → (strDropPre "/" (args.getD i "")).isSome →
      strDropPre "//" (args.getD i "") = none →
      ∃ out sd' ws,
        PathsGo.convertAnyPaths '/' (.ok wd) sd args = .ok (out, sd', ws) ∧
        out.length = args.length ∧
        out.getD i "" = args.getD i "" ∧
        ("unsafe use of absolute path " ++ args.getD i "") ∈ ws := by
  induction args with
  | nil =>
    intro sd i hi
    simp at hi
  | cons p rest ih =>
    intro sd i hi habs hns
    cases i with
    | zero =>
      have h1 := pathsgo_absolute_one wd sd p habs hns
      obtain ⟨out, sd2, ws2, h2, hlen⟩ := pathsgo_list_ok '/' wd rest sd
      refine ⟨p :: out, sd2, ["unsafe use of absolute path " ++ p] ++ ws2, ?_, ?_, rfl, ?_⟩
      · simp [PathsGo.convertAnyPaths, h1, h2]
      · simp [hlen]
      · simp
    | succ j =>
      have hj : j < rest.length := by simpa using hi
      rw [List.getD_cons_succ] at habs hns ⊢
      obtain ⟨t, sd1, ws1, h1⟩ := pathsgo_convertOne_ok '/' wd sd p
      obtain ⟨out, sd2, ws2, h2, hlen, hval, hmem⟩ := ih sd1 j hj habs hns
      refine ⟨t :: out, sd2, ws1 ++ ws2, ?_, ?_, ?_, ?_⟩
      · simp [PathsGo.convertAnyPaths, h1, h2]
      · simp [hlen]
      · simpa using hval
      · exact List.mem_append_right ws1 hmem

theorem c7_witness :
    (1 : Nat) < 2 ∧
    (strDropPre "/" ((["x", "/abs/p"] : List String).getD 1 "")).isSome = true ∧
    strDropPre "//" ((["x", "/abs/p"] : List String).getD 1 "") = none ∧
    (∃ out sd' ws,
      PathsGo.convertAnyPaths '/' (.ok "/w") "/s" ["x", "/abs/p"] = .ok (out, sd', ws) ∧
      out.length = (["x", "/abs/p"] : List String).length ∧
      out.getD 1 "" = (["x", "/abs/p"] : List String).getD 1 "" ∧
      ("unsafe use of absolute path " ++ (["x", "/abs/p"] : List String).getD 1 "") ∈ ws) :=
  ⟨by decide, by decide, by decide,
    c7_absolute_path_warning "/w" ["x", "/abs/p"] "/s" 1 (by decide) (by decide) (by decide)⟩
